import Mathlib

/-!
Verification of the nodeunit task runner (`task_runner.js`) against its
natural-language specification.

The JavaScript source is shallowly embedded: JS strings become `List Char`,
the filesystem becomes a function from paths to optional file contents,
and each relevant routine (`buildAndClean`, `runBrowser`, the top-level
command dispatch) becomes an executable Lean definition that mirrors the
source line by line.
-/

namespace TaskRunner

/-- A JavaScript string, modelled as its list of characters. -/
abbrev Str := List Char

/-- Shorthand to turn a Lean string literal into the `Str` model. -/
def str (s : String) : Str := s.toList

/-! ## Marker removal (`buildAndClean`, task_runner.js lines 149-153)

The source runs `content.replace(new RegExp(escaped, 'g'), '')` for each
replacement string, where `escaped` backslash-escapes every regex
metacharacter of the marker, so the regex matches the marker literally.
A global literal replacement deletes the leftmost-first, non-overlapping
occurrences of the marker in a single left-to-right scan; an empty
pattern leaves the string unchanged. `removeAll` is that scan. -/

/-- Does the (non-empty) marker `m` match at the current scan position of `s`? -/
def hits (m s : Str) : Bool := !m.isEmpty && m.isPrefixOf s

/-- The scan behind `removeAll`, made structurally recursive on a fuel
argument so that it evaluates by mere reduction; the fuel is a bound on
the scan position and is semantically irrelevant once it is at least the
length of the input (`removeAllFuel_congr`). -/
def removeAllFuel (m : Str) : Nat → Str → Str
  | _, [] => []
  | 0, s => s
  | f + 1, c :: rest =>
    if hits m (c :: rest) then removeAllFuel m f ((c :: rest).drop m.length)
    else c :: removeAllFuel m f rest

/-- Global literal removal of marker `m` from `s`, exactly as
`s.replace(new RegExp(escapedM, 'g'), '')` behaves in JavaScript. -/
def removeAll (m : Str) (s : Str) : Str := removeAllFuel m s.length s

/-- Fuel-indexed version of `countOcc`. -/
def countOccFuel (m : Str) : Nat → Str → Nat
  | _, [] => 0
  | 0, _ => 0
  | f + 1, c :: rest =>
    if hits m (c :: rest) then countOccFuel m f ((c :: rest).drop m.length) + 1
    else countOccFuel m f rest

/-- Number of (leftmost-first, non-overlapping) occurrences of marker `m`
in `s`, counted by the same scan that `removeAll` performs. -/
def countOcc (m : Str) (s : Str) : Nat := countOccFuel m s.length s

/-- Fuel-indexed version of `pieces`. -/
def piecesFuel (m : Str) : Nat → Str → List Str
  | _, [] => [[]]
  | 0, s => [s]
  | f + 1, c :: rest =>
    if hits m (c :: rest) then [] :: piecesFuel m f ((c :: rest).drop m.length)
    else
      match piecesFuel m f rest with
      | [] => [[c]]
      | p :: ps => (c :: p) :: ps

/-- The maximal chunks of `s` lying strictly between the occurrences of `m`
that the `removeAll` scan deletes.  There is always one more chunk than
there are occurrences. -/
def pieces (m : Str) (s : Str) : List Str := piecesFuel m s.length s

/-- Interleave the separator `m` between consecutive chunks. -/
def glue (m : Str) : List Str → Str
  | [] => []
  | [x] => x
  | x :: y :: t => x ++ m ++ glue m (y :: t)

/-- Apply every replacement in order, as the `replacements.forEach` loop of
`buildAndClean` does (task_runner.js lines 150-153). -/
def applyReplacements (rs : List Str) (s : Str) : Str :=
  rs.foldl (fun acc m => removeAll m acc) s

/-! ### Lemmas about the removal scan -/

theorem hits_true {m s : Str} (h : hits m s = true) :
    m ≠ [] ∧ m <+: s := by
  simp only [hits, Bool.and_eq_true, Bool.not_eq_true', List.isEmpty_eq_false_iff_exists_mem,
    List.isPrefixOf_iff_prefix] at h
  obtain ⟨⟨a, ha⟩, hp⟩ := h
  exact ⟨by rintro rfl; exact absurd ha (List.not_mem_nil a), hp⟩

theorem hits_false {m s : Str} (h : hits m s = false) (hm : m ≠ []) :
    ¬ m <+: s := by
  simp only [hits, Bool.and_eq_false_iff, Bool.not_eq_false', List.isEmpty_iff,
    List.isPrefixOf_iff_prefix] at h
  rcases h with h | h
  · exact absurd h hm
  · rw [← List.isPrefixOf_iff_prefix]
    simp [h]

/-- Induction principle following the scan shared by `removeAll`, `countOcc`
and `pieces`. -/
theorem scanInd (m : Str) (motive : Str → Prop)
    (h0 : motive [])
    (h1 : ∀ c rest, hits m (c :: rest) = true →
      motive ((c :: rest).drop m.length) → motive (c :: rest))
    (h2 : ∀ c rest, hits m (c :: rest) = false → motive rest → motive (c :: rest)) :
    ∀ s, motive s := by
  have key : ∀ n (s : Str), s.length ≤ n → motive s := by
    intro n
    induction n with
    | zero =>
      intro s hs
      have : s = [] := List.eq_nil_of_length_eq_zero (Nat.le_zero.mp hs)
      simpa [this] using h0
    | succ n ih =>
      intro s hs
      match s with
      | [] => exact h0
      | c :: rest =>
        cases hh : hits m (c :: rest) with
        | true =>
          refine h1 c rest hh (ih _ ?_)
          have hm : 0 < m.length :=
            List.length_pos.mpr (hits_true hh).1
          simp only [List.length_drop, List.length_cons]
          simp only [List.length_cons] at hs
          omega
        | false =>
          refine h2 c rest hh (ih _ ?_)
          simp only [List.length_cons] at hs
          omega
  exact fun s => key s.length s le_rfl

theorem hits_drop_le {m : Str} {c : Char} {rest : Str} (h : hits m (c :: rest) = true) :
    ((c :: rest).drop m.length).length ≤ rest.length := by
  have hm : 0 < m.length := List.length_pos.mpr (hits_true h).1
  simp only [List.length_drop, List.length_cons]
  omega

theorem removeAllFuel_congr (m : Str) : ∀ (n : Nat) (s : Str) (f g : Nat),
    s.length ≤ f → s.length ≤ g → s.length ≤ n →
    removeAllFuel m f s = removeAllFuel m g s := by
  intro n
  induction n with
  | zero =>
    intro s f g hf hg hn
    have hs : s = [] := List.eq_nil_of_length_eq_zero (Nat.le_zero.mp hn)
    subst hs
    cases f <;> cases g <;> rfl
  | succ n ih =>
    intro s f g hf hg hn
    cases s with
    | nil => cases f <;> cases g <;> rfl
    | cons c rest =>
      simp only [List.length_cons] at hf hg hn
      obtain ⟨f', rfl⟩ : ∃ f', f = f' + 1 := ⟨f - 1, by omega⟩
      obtain ⟨g', rfl⟩ : ∃ g', g = g' + 1 := ⟨g - 1, by omega⟩
      cases hh : hits m (c :: rest) with
      | true =>
        have hd := hits_drop_le hh
        simp only [removeAllFuel, hh, if_true]
        exact ih _ f' g' (by omega) (by omega) (by omega)
      | false =>
        simp only [removeAllFuel, hh, Bool.false_eq_true, if_false]
        exact congrArg (c :: ·) (ih rest f' g' (by omega) (by omega) (by omega))

theorem countOccFuel_congr (m : Str) : ∀ (n : Nat) (s : Str) (f g : Nat),
    s.length ≤ f → s.length ≤ g → s.length ≤ n →
    countOccFuel m f s = countOccFuel m g s := by
  intro n
  induction n with
  | zero =>
    intro s f g hf hg hn
    have hs : s = [] := List.eq_nil_of_length_eq_zero (Nat.le_zero.mp hn)
    subst hs
    cases f <;> cases g <;> rfl
  | succ n ih =>
    intro s f g hf hg hn
    cases s with
    | nil => cases f <;> cases g <;> rfl
    | cons c rest =>
      simp only [List.length_cons] at hf hg hn
      obtain ⟨f', rfl⟩ : ∃ f', f = f' + 1 := ⟨f - 1, by omega⟩
      obtain ⟨g', rfl⟩ : ∃ g', g = g' + 1 := ⟨g - 1, by omega⟩
      cases hh : hits m (c :: rest) with
      | true =>
        have hd := hits_drop_le hh
        simp only [countOccFuel, hh, if_true]
        exact congrArg (· + 1) (ih _ f' g' (by omega) (by omega) (by omega))
      | false =>
        simp only [countOccFuel, hh, Bool.false_eq_true, if_false]
        exact ih rest f' g' (by omega) (by omega) (by omega)

theorem piecesFuel_congr (m : Str) : ∀ (n : Nat) (s : Str) (f g : Nat),
    s.length ≤ f → s.length ≤ g → s.length ≤ n →
    piecesFuel m f s = piecesFuel m g s := by
  intro n
  induction n with
  | zero =>
    intro s f g hf hg hn
    have hs : s = [] := List.eq_nil_of_length_eq_zero (Nat.le_zero.mp hn)
    subst hs
    cases f <;> cases g <;> rfl
  | succ n ih =>
    intro s f g hf hg hn
    cases s with
    | nil => cases f <;> cases g <;> rfl
    | cons c rest =>
      simp only [List.length_cons] at hf hg hn
      obtain ⟨f', rfl⟩ : ∃ f', f = f' + 1 := ⟨f - 1, by omega⟩
      obtain ⟨g', rfl⟩ : ∃ g', g = g' + 1 := ⟨g - 1, by omega⟩
      cases hh : hits m (c :: rest) with
      | true =>
        have hd := hits_drop_le hh
        simp only [piecesFuel, hh, if_true]
        exact congrArg ([] :: ·) (ih _ f' g' (by omega) (by omega) (by omega))
      | false =>
        simp only [piecesFuel, hh, Bool.false_eq_true, if_false]
        rw [ih rest f' g' (by omega) (by omega) (by omega)]

theorem removeAll_nil (m : Str) : removeAll m [] = [] := rfl

theorem removeAll_cons_hits {m : Str} {c : Char} {rest : Str}
    (h : hits m (c :: rest) = true) :
    removeAll m (c :: rest) = removeAll m ((c :: rest).drop m.length) := by
  show removeAllFuel m (rest.length + 1) (c :: rest) = _
  simp only [removeAllFuel, h, if_true]
  exact removeAllFuel_congr m rest.length ((c :: rest).drop m.length) rest.length
    ((c :: rest).drop m.length).length (hits_drop_le h) le_rfl (hits_drop_le h)

theorem removeAll_cons_miss {m : Str} {c : Char} {rest : Str}
    (h : hits m (c :: rest) = false) :
    removeAll m (c :: rest) = c :: removeAll m rest := by
  show removeAllFuel m (rest.length + 1) (c :: rest) = _
  simp only [removeAllFuel, h, Bool.false_eq_true, if_false]
  rfl

theorem countOcc_nil (m : Str) : countOcc m [] = 0 := rfl

theorem countOcc_cons_hits {m : Str} {c : Char} {rest : Str}
    (h : hits m (c :: rest) = true) :
    countOcc m (c :: rest) = countOcc m ((c :: rest).drop m.length) + 1 := by
  show countOccFuel m (rest.length + 1) (c :: rest) = _
  simp only [countOccFuel, h, if_true]
  exact congrArg (· + 1) (countOccFuel_congr m rest.length ((c :: rest).drop m.length)
    rest.length ((c :: rest).drop m.length).length (hits_drop_le h) le_rfl (hits_drop_le h))

theorem countOcc_cons_miss {m : Str} {c : Char} {rest : Str}
    (h : hits m (c :: rest) = false) :
    countOcc m (c :: rest) = countOcc m rest := by
  show countOccFuel m (rest.length + 1) (c :: rest) = _
  simp only [countOccFuel, h, Bool.false_eq_true, if_false]
  rfl

theorem pieces_nil (m : Str) : pieces m [] = [[]] := rfl

theorem pieces_cons_hits {m : Str} {c : Char} {rest : Str}
    (h : hits m (c :: rest) = true) :
    pieces m (c :: rest) = [] :: pieces m ((c :: rest).drop m.length) := by
  show piecesFuel m (rest.length + 1) (c :: rest) = _
  simp only [piecesFuel, h, if_true]
  exact congrArg ([] :: ·) (piecesFuel_congr m rest.length ((c :: rest).drop m.length)
    rest.length ((c :: rest).drop m.length).length (hits_drop_le h) le_rfl (hits_drop_le h))

theorem pieces_cons_miss {m : Str} {c : Char} {rest : Str}
    (h : hits m (c :: rest) = false) :
    pieces m (c :: rest) =
      match pieces m rest with
      | [] => [[c]]
      | p :: ps => (c :: p) :: ps := by
  show piecesFuel m (rest.length + 1) (c :: rest) = _
  simp only [piecesFuel, h, Bool.false_eq_true, if_false]
  rfl

theorem pieces_ne_nil (m s : Str) : pieces m s ≠ [] := by
  induction s using scanInd m with
  | h0 => simp [pieces_nil]
  | h1 c rest hh ih => simp [pieces_cons_hits hh]
  | h2 c rest hh ih =>
    rw [pieces_cons_miss hh]
    cases pieces m rest with
    | nil => simp
    | cons p ps => simp

/-- Gluing the computed pieces back together with the marker reconstructs the
input: every character of `s` outside the removed occurrences appears,
unaltered and in order, in the pieces. -/
theorem glue_pieces (m : Str) : ∀ s, glue m (pieces m s) = s := by
  intro s
  induction s using scanInd m with
  | h0 => simp [pieces_nil, glue]
  | h1 c rest hh ih =>
    rw [pieces_cons_hits hh]
    obtain ⟨hm, u, hu⟩ := hits_true hh
    cases hq : pieces m ((c :: rest).drop m.length) with
    | nil => exact absurd hq (pieces_ne_nil m _)
    | cons p ps =>
      rw [hq] at ih
      have hdrop : (c :: rest).drop m.length = u := by
        rw [← hu, List.drop_left]
      rw [glue, ← hu]
      rw [hdrop] at ih
      simp [ih]
  | h2 c rest hh ih =>
    rw [pieces_cons_miss hh]
    cases hq : pieces m rest with
    | nil => exact absurd hq (pieces_ne_nil m _)
    | cons p ps =>
      rw [hq] at ih
      cases ps with
      | nil => simpa [glue] using congrArg (c :: ·) ih
      | cons q qs =>
        rw [glue]
        rw [glue] at ih
        simp_all

/-- Concatenating the pieces (i.e. deleting exactly the scanned occurrences)
gives the output of `removeAll`. -/
theorem join_pieces (m : Str) : ∀ s, (pieces m s).flatten = removeAll m s := by
  intro s
  induction s using scanInd m with
  | h0 => simp [pieces_nil, removeAll_nil]
  | h1 c rest hh ih =>
    rw [pieces_cons_hits hh, removeAll_cons_hits hh]
    simpa using ih
  | h2 c rest hh ih =>
    rw [pieces_cons_miss hh, removeAll_cons_miss hh]
    cases hq : pieces m rest with
    | nil => exact absurd hq (pieces_ne_nil m _)
    | cons p ps =>
      rw [hq] at ih
      simp_all

/-- There is exactly one more piece than there are removed occurrences. -/
theorem pieces_length (m : Str) : ∀ s, (pieces m s).length = countOcc m s + 1 := by
  intro s
  induction s using scanInd m with
  | h0 => simp [pieces_nil, countOcc_nil]
  | h1 c rest hh ih =>
    rw [pieces_cons_hits hh, countOcc_cons_hits hh]
    simpa using ih
  | h2 c rest hh ih =>
    rw [pieces_cons_miss hh, countOcc_cons_miss hh]
    cases hq : pieces m rest with
    | nil => exact absurd hq (pieces_ne_nil m _)
    | cons p ps =>
      rw [hq] at ih
      simp_all

/-- A string with no scanned occurrence of the marker is left unchanged. -/
theorem removeAll_of_countOcc_zero {m : Str} : ∀ {s : Str},
    countOcc m s = 0 → removeAll m s = s := by
  intro s
  induction s using scanInd m with
  | h0 => simp [removeAll_nil]
  | h1 c rest hh ih =>
    rw [countOcc_cons_hits hh]
    omega
  | h2 c rest hh ih =>
    rw [countOcc_cons_miss hh, removeAll_cons_miss hh]
    intro h
    rw [ih h]

/-- For a non-empty marker, having zero scanned occurrences is the same as the
marker not occurring in `s` as a contiguous substring at all. -/
theorem countOcc_eq_zero_iff {m : Str} (hm : m ≠ []) : ∀ {s : Str},
    countOcc m s = 0 ↔ ¬ m <:+: s := by
  intro s
  induction s using scanInd m with
  | h0 =>
    simp only [countOcc_nil, List.infix_nil]
    simp [hm]
  | h1 c rest hh ih =>
    rw [countOcc_cons_hits hh]
    have hp : m <:+: c :: rest := (hits_true hh).2.isInfix
    simp [hp]
  | h2 c rest hh ih =>
    rw [countOcc_cons_miss hh, List.infix_cons_iff]
    have hnp : ¬ m <+: c :: rest := hits_false hh hm
    rw [ih]
    tauto

/-! ## Fragments and the assembler (`buildAndClean`, task_runner.js lines 136-156)

Each element of the `parts` array is an object with either a `path` field
(file contents are read at assembly time) or a `content` field (an inline
string).  The filesystem is a partial map from paths to file contents;
`fs.readFileSync` on an absent path throws, which the embedding models as
an `Except.error` carrying the failing path. -/

/-- One entry of the `parts` array handed to `buildAndClean`. -/
inductive Part where
  | file (filePath : Str)
  | content (text : Str)
deriving DecidableEq

/-- The filesystem: maps a path to the file's contents, when the file exists. -/
abbrev FS := Str → Option Str

/-- Resolve one part to its text: a `path` part reads the file, a `content`
part is its own text. -/
def resolveFrag (fs : FS) : Part → Option Str
  | Part.file p => fs p
  | Part.content t => t

/-- The concatenation loop of `buildAndClean` (lines 140-147): append each
part's resolved text followed by one newline.  The first unreadable `path`
aborts with that path, mirroring the `fs.readFileSync` exception. -/
def resolveParts (fs : FS) : List Part → Except Str Str
  | [] => Except.ok []
  | Part.file p :: rest =>
    match fs p with
    | none => Except.error p
    | some t => (resolveParts fs rest).map (fun r => t ++ '\n' :: r)
  | Part.content t :: rest => (resolveParts fs rest).map (fun r => t ++ '\n' :: r)

/-- Overwrite (or create) the file at `p` with contents `c`. -/
def writeFile (fs : FS) (p c : Str) : FS :=
  fun q => if q = p then some c else fs q

/-- The assembler, task_runner.js lines 136-156: concatenate the parts with
trailing newlines, strip every replacement string, write the result to
`targetFile`.  The returned pair is the filesystem after the call together
with the JavaScript return value of the function: the source has no
`return` statement, so on normal completion the value is `none`
(i.e. `undefined`); an unreadable part propagates as an exception, in
which case no write has happened and the filesystem is unchanged. -/
def buildAndClean (fs : FS) (targetFile : Str) (parts : List Part)
    (replacements : List Str) : FS × Except Str (Option Str) :=
  match resolveParts fs parts with
  | Except.error p => (fs, Except.error p)
  | Except.ok content =>
    (writeFile fs targetFile (applyReplacements replacements content),
     Except.ok none)

/-- Exit status of the Node.js process around a computation: an uncaught
exception terminates the process with status 1, normal completion falls off
the end of the script and exits with status 0. -/
def exitOf {α : Type} : Except Str α → Nat
  | Except.error _ => 1
  | Except.ok _ => 0

/-! ### Lemmas about the assembler -/

theorem writeFile_same (fs : FS) (p c : Str) : writeFile fs p c p = some c := by
  simp [writeFile]

theorem writeFile_other (fs : FS) {p q : Str} (c : Str) (h : q ≠ p) :
    writeFile fs p c q = fs q := by
  simp [writeFile, h]

/-- Resolve all parts in order; `none` when some file part is unreadable. -/
def resolveTexts (fs : FS) : List Part → Option (List Str)
  | [] => some []
  | p :: rest =>
    match resolveFrag fs p, resolveTexts fs rest with
    | some t, some ts => some (t :: ts)
    | _, _ => none

/-- When every file part is readable, the concatenation succeeds and equals
the in-order join of the resolved texts, each followed by one newline. -/
theorem resolveParts_ok (fs : FS) : ∀ (parts : List Part) (rs : List Str),
    resolveTexts fs parts = some rs →
    resolveParts fs parts = Except.ok ((rs.map (fun t => t ++ ['\n'])).flatten) := by
  intro parts
  induction parts with
  | nil =>
    intro rs h
    simp only [resolveTexts, Option.some.injEq] at h
    simp [← h, resolveParts]
  | cons hd tl ih =>
    intro rs h
    rw [resolveTexts] at h
    cases hhd : resolveFrag fs hd with
    | none => rw [hhd] at h; simp at h
    | some t =>
      rw [hhd] at h
      cases htl : resolveTexts fs tl with
      | none => rw [htl] at h; simp at h
      | some rs' =>
        rw [htl] at h
        simp only [Option.some.injEq] at h
        subst h
        cases hd with
        | file p =>
          simp only [resolveFrag] at hhd
          simp [resolveParts, hhd, ih rs' htl, Except.map]
        | content t' =>
          simp only [resolveFrag, Option.some.injEq] at hhd
          subst hhd
          simp [resolveParts, ih rs' htl, Except.map]

/-- If some file part is unreadable, resolution fails with an unreadable path. -/
theorem resolveParts_err (fs : FS) : ∀ (parts : List Part) (p : Str),
    Part.file p ∈ parts → fs p = none →
    ∃ q, resolveParts fs parts = Except.error q ∧ fs q = none := by
  intro parts
  induction parts with
  | nil =>
    intro p hp
    exact absurd hp (List.not_mem_nil _)
  | cons hd tl ih =>
    intro p hp hread
    cases hd with
    | file p' =>
      cases hp' : fs p' with
      | none => exact ⟨p', by simp [resolveParts, hp'], hp'⟩
      | some t =>
        have hmem : Part.file p ∈ tl := by
          rcases List.mem_cons.mp hp with h | h
          · cases h
            rw [hp'] at hread
            cases hread
          · exact h
        obtain ⟨q, hq, hqr⟩ := ih p hmem hread
        exact ⟨q, by simp [resolveParts, hp', hq, Except.map], hqr⟩
    | content t =>
      have hmem : Part.file p ∈ tl := by
        rcases List.mem_cons.mp hp with h | h
        · cases h
        · exact h
      obtain ⟨q, hq, hqr⟩ := ih p hmem hread
      exact ⟨q, by simp [resolveParts, hq, Except.map], hqr⟩

/-- When every file part is readable, `buildAndClean` writes the
post-replacement concatenation to the target and returns `undefined`. -/
theorem buildAndClean_ok {fs : FS} {parts : List Part} {rs : List Str}
    (targetFile : Str) (replacements : List Str)
    (h : resolveTexts fs parts = some rs) :
    buildAndClean fs targetFile parts replacements =
      (writeFile fs targetFile
        (applyReplacements replacements ((rs.map (fun t => t ++ ['\n'])).flatten)),
       Except.ok none) := by
  simp [buildAndClean, resolveParts_ok fs parts rs h]

/-! ## The browser build target (`runBrowser`, task_runner.js lines 162-260) -/

/-- Marker stripped from the browser bundle (line 207). -/
def browserMarker : Str := str "@REMOVE_LINE_FOR_BROWSER"

/-- Second marker stripped from the CommonJS bundle (lines 311-314). -/
def commonjsMarker : Str := str "@REMOVE_LINE_FOR_COMMONJS"

/-- Replacement list of the browser target (line 207). -/
def browserReplacements : List Str := [browserMarker]

/-- Replacement list of the CommonJS target (lines 311-314). -/
def commonjsReplacements : List Str := [browserMarker, commonjsMarker]

/-- The `parts` array of the browser bundle (lines 177-204), verbatim. -/
def browserParts : List Part :=
  [Part.file (str "share/license.js"),
   Part.content (str "nodeunit = (function()\x7b"),
   Part.file (str "deps/json2.js"),
   Part.content (str "var assert = this.assert = \x7b\x7d;"),
   Part.content (str "var types = \x7b\x7d;"),
   Part.content (str "var core = \x7b\x7d;"),
   Part.content (str "var nodeunit = \x7b\x7d;"),
   Part.content (str "var reporter = \x7b\x7d;"),
   Part.file (str "deps/async.js"),
   Part.content (str "(function(exports)\x7b"),
   Part.file (str "lib/assert.js"),
   Part.content (str "\x7d)(assert);"),
   Part.content (str "(function(exports)\x7b"),
   Part.file (str "lib/types.js"),
   Part.content (str "\x7d)(types);"),
   Part.content (str "(function(exports)\x7b"),
   Part.file (str "lib/core.js"),
   Part.content (str "\x7d)(core);"),
   Part.content (str "(function(exports)\x7b"),
   Part.file (str "lib/reporters/browser.js"),
   Part.content (str "\x7d)(reporter);"),
   Part.content (str "nodeunit = core;"),
   Part.content (str "nodeunit.assert = assert;"),
   Part.content (str "nodeunit.reporter = reporter;"),
   Part.content (str "nodeunit.run = reporter.run;"),
   Part.content (str "return nodeunit; \x7d)();")]

/-- The five legacy test scripts wrapped by the browser target (line 239). -/
def testScripts : List Str :=
  [str "test-base.js", str "test-runmodule.js", str "test-runtest.js",
   str "test-testcase.js", str "test-testcase-legacy.js"]

/-- The segment of a path after its final slash. -/
def afterLastSlash (s : Str) : Str :=
  s.foldl (fun acc c => if c = '/' then [] else acc ++ [c]) []

/-- Node's `path.basename(s, ext)`: the final path segment, with `ext`
stripped when it is a proper suffix of that segment. -/
def basename (s ext : Str) : Str :=
  let b := afterLastSlash s
  if ext.isSuffixOf b ∧ b ≠ ext then b.take (b.length - ext.length) else b

/-- The hyphen-to-underscore conversion applied to the script name at
line 248: a global regex replace substituting each hyphen pointwise. -/
def underscore (s : Str) : Str :=
  s.map (fun c => if c = '-' then '_' else c)

/-- The three-part wrapping plan built for one test script (lines 245-249). -/
def mkTestParts (script : Str) : List Part :=
  [Part.content (str "(function (exports) \x7b"),
   Part.file (str "test/" ++ script),
   Part.content (str "\x7d)(this." ++ underscore (basename script (str ".js")) ++
     str " = \x7b\x7d);")]

/-- Paths used by the browser target. -/
def browserDir : Str := str "dist/browser"

def browserTarget : Str := str "dist/browser/nodeunit.js"

def browserMin : Str := str "dist/browser/nodeunit.min.js"

def browserCss : Str := str "dist/browser/nodeunit.css"

/-- Model of `fs.rmSync(dir, { recursive: true, force: true })`: the file
named `dir` itself and every file below `dir/` disappear. -/
def rmTree (fs : FS) (dir : Str) : FS :=
  fun q => if dir = q ∨ (dir ++ ['/']).isPrefixOf q then none else fs q

/-- Model of `fs.copyFileSync(src, dst)`: reading a missing source throws. -/
def copyFile (fs : FS) (src dst : Str) : FS × Except Str Unit :=
  match fs src with
  | none => (fs, Except.error src)
  | some c => (writeFile fs dst c, Except.ok ())

/-- Outcome of one `UglifyJS.minify` invocation: a `\x7bcode\x7d` payload, an
`\x7berror\x7d` payload (line 223 turns it into a throw), or a thrown
exception from the minifier itself. -/
inductive MinifyResult where
  | success (code : Str)
  | errorPayload (msg : Str)
  | thrown (msg : Str)

/-- Did the minifier fail (error payload or exception)? -/
def MinifyResult.isFailure : MinifyResult → Bool
  | MinifyResult.success _ => false
  | _ => true

/-- Result of a completed browser build: the filesystem and the lines
printed to the error stream. -/
structure BrowserResult where
  fs : FS
  errLog : List Str

/-- The error line printed by the catch block at line 231. -/
def minifyErrorLine (e : Str) : Str :=
  str "\n❌ ERROR during UglifyJS minification: " ++ e

/-- The per-script wrapping loop (lines 241-253). -/
def wrapScripts (fs : FS) : List Str → FS × Except Str Unit
  | [] => (fs, Except.ok ())
  | script :: rest =>
    match buildAndClean fs (str "dist/browser/test/" ++ script)
        (mkTestParts script) browserReplacements with
    | (fs1, Except.ok _) => wrapScripts fs1 rest
    | (fs1, Except.error p) => (fs1, Except.error p)

/-- The minification step of the browser target (lines 216-232): inside the
try block the just-written bundle is re-read and handed to the minifier;
a successful result is written next to the bundle, while an error payload
(thrown at line 224), a minifier exception, or a read failure lands in the
catch block, which only logs the error line and lets the build continue. -/
def minifyStep (fs2 : FS) (minify : Str → MinifyResult) : FS × List Str :=
  match fs2 browserTarget with
  | none => (fs2, [minifyErrorLine (str "read failure")])
  | some code =>
    match minify code with
    | MinifyResult.success mcode => (writeFile fs2 browserMin mcode, [])
    | MinifyResult.errorPayload e => (fs2, [minifyErrorLine e])
    | MinifyResult.thrown e => (fs2, [minifyErrorLine e])

/-- The browser build task (lines 162-260): clear `dist/browser`, assemble
the bundle, copy the CSS, minify inside a try/catch whose failure is only
logged, then wrap the test scripts and copy the final artifacts. -/
def runBrowser (fs0 : FS) (minify : Str → MinifyResult) : Except Str BrowserResult :=
  match buildAndClean (rmTree fs0 browserDir) browserTarget browserParts
      browserReplacements with
  | (_, Except.error p) => Except.error p
  | (fs1, Except.ok _) =>
    match copyFile fs1 (str "share/nodeunit.css") browserCss with
    | (_, Except.error p) => Except.error p
    | (fs2, Except.ok _) =>
      match minifyStep fs2 minify with
      | (fs3, log) =>
        match copyFile fs3 (str "test/test.html")
            (str "dist/browser/test/test.html") with
        | (_, Except.error p) => Except.error p
        | (fs4, Except.ok _) =>
          match wrapScripts fs4 testScripts with
          | (_, Except.error p) => Except.error p
          | (fs5, Except.ok _) =>
            match copyFile fs5 browserTarget (str "dist/browser/test/nodeunit.js") with
            | (_, Except.error p) => Except.error p
            | (fs6, Except.ok _) =>
              match copyFile fs6 browserCss
                  (str "dist/browser/test/nodeunit.css") with
              | (_, Except.error p) => Except.error p
              | (fs7, Except.ok _) => Except.ok ⟨fs7, log⟩

/-! ## Command-line dispatch (task_runner.js lines 24-31 and 433-493) -/

/-- JavaScript `arg.startsWith('-')`. -/
def startsWithDash (a : Str) : Bool :=
  match a with
  | [] => false
  | c :: _ => c = '-'

/-- ASCII model of one character of `String.prototype.toLowerCase`:
uppercase basic-latin letters are shifted down by 32, everything else is
unchanged.  All command words compared by the dispatch are ASCII. -/
def lowerChar (c : Char) : Char :=
  if 65 ≤ c.toNat ∧ c.toNat ≤ 90 then Char.ofNat (c.toNat + 32) else c

/-- Model of `s.toLowerCase()` (task_runner.js line 28). -/
def lower (s : Str) : Str := s.map lowerChar

/-- The primary command: the first argument not starting with a hyphen,
defaulting to the empty string, lowercased (lines 27-28). -/
def primaryCommand (args : List Str) : Str :=
  lower ((args.find? (fun a => !startsWithDash a)).getD [])

/-- The flags: all arguments starting with a hyphen (line 31). -/
def optionsOf (args : List Str) : List Str :=
  args.filter startsWithDash

/-- The ten tasks reachable from the command switch. -/
inductive TaskKind where
  | all | build | browser | commonjs | test | clean | lint | doc | install | uninstall
deriving DecidableEq

/-- What the top-level dispatch decides to do. -/
inductive Outcome where
  | helpBrief
  | helpVerbose
  | errNoCommand
  | runTask (t : TaskKind)
  | errUnknown (cmd : Str)
deriving DecidableEq

/-- The dispatch as a function of the parsed flags and primary command
(lines 436-493): help flags first, then the no-command check, then the
switch over the ten recognized commands with its default case. -/
def dispatchCore (opts : List Str) (cmd : Str) : Outcome :=
  if opts.contains (str "-h") || opts.contains (str "--help") then Outcome.helpBrief
  else if opts.contains (str "-hh") then Outcome.helpVerbose
  else if cmd = [] then Outcome.errNoCommand
  else if cmd = str "all" then Outcome.runTask TaskKind.all
  else if cmd = str "build" then Outcome.runTask TaskKind.build
  else if cmd = str "browser" then Outcome.runTask TaskKind.browser
  else if cmd = str "commonjs" then Outcome.runTask TaskKind.commonjs
  else if cmd = str "test" then Outcome.runTask TaskKind.test
  else if cmd = str "clean" then Outcome.runTask TaskKind.clean
  else if cmd = str "lint" then Outcome.runTask TaskKind.lint
  else if cmd = str "doc" then Outcome.runTask TaskKind.doc
  else if cmd = str "install" then Outcome.runTask TaskKind.install
  else if cmd = str "uninstall" then Outcome.runTask TaskKind.uninstall
  else Outcome.errUnknown cmd

/-- The whole top-level of the script on a given argument vector. -/
def dispatch (args : List Str) : Outcome :=
  dispatchCore (optionsOf args) (primaryCommand args)

/-- The ten command words recognized by the switch. -/
def recognizedCommands : List Str :=
  [str "all", str "build", str "browser", str "commonjs", str "test",
   str "clean", str "lint", str "doc", str "install", str "uninstall"]

/-- One observable console line of the dispatch itself. -/
inductive PrintItem where
  | errorLine (msg : Str)
  | helpBrief
  | helpVerbose
deriving DecidableEq

/-- The error line of the no-command branch (line 442). -/
def noCommandLine : Str := str "\n❌ ERROR: No command provided."

/-- The error line of the default switch case (line 489); character 39 is
the single quote around the command word. -/
def unknownCommandLine (cmd : Str) : Str :=
  str "\n❌ ERROR: Unknown command: " ++ [Char.ofNat 39] ++ cmd ++ [Char.ofNat 39]

/-- What the dispatch prints before (possibly) running a task. -/
def printsOf : Outcome → List PrintItem
  | Outcome.helpBrief => [PrintItem.helpBrief]
  | Outcome.helpVerbose => [PrintItem.helpVerbose]
  | Outcome.errNoCommand => [PrintItem.errorLine noCommandLine, PrintItem.helpBrief]
  | Outcome.errUnknown c => [PrintItem.errorLine (unknownCommandLine c), PrintItem.helpBrief]
  | Outcome.runTask _ => []

/-- Exit status of the process as determined by the dispatch alone: every
branch except `runTask` ends the script normally (no `process.exit` call
anywhere in those branches), so the process exits with status 0; for
`runTask` the status depends on the executed task, hence `none`. -/
def outcomeExit : Outcome → Option Nat
  | Outcome.runTask _ => none
  | _ => some 0

/-! ### Character lemmas for the lowercasing -/

theorem toNat_ofNat_valid {n : Nat} (h : n < 55296) : (Char.ofNat n).toNat = n := by
  have hv : n.isValidChar := Or.inl h
  rw [Char.ofNat, dif_pos hv]
  simp [Char.ofNatAux, Char.toNat, UInt32.toNat]

theorem char_eq_iff_toNat {a b : Char} : a = b ↔ a.toNat = b.toNat := by
  constructor
  · rintro rfl; rfl
  · intro h
    exact Char.eq_of_val_eq (UInt32.toNat.inj h)

theorem lowerChar_dash_iff (c : Char) : lowerChar c = '-' ↔ c = '-' := by
  unfold lowerChar
  by_cases h : 65 ≤ c.toNat ∧ c.toNat ≤ 90
  · rw [if_pos h]
    constructor
    · intro he
      have h1 : (Char.ofNat (c.toNat + 32)).toNat = Char.toNat '-' :=
        char_eq_iff_toNat.mp he
      rw [toNat_ofNat_valid (by omega)] at h1
      have h2 : Char.toNat '-' = 45 := rfl
      omega
    · intro he
      subst he
      exfalso
      exact absurd h (by decide)
  · rw [if_neg h]

theorem lowerChar_idem (c : Char) : lowerChar (lowerChar c) = lowerChar c := by
  unfold lowerChar
  by_cases h : 65 ≤ c.toNat ∧ c.toNat ≤ 90
  · rw [if_pos h, toNat_ofNat_valid (by omega), if_neg (by omega)]
  · rw [if_neg h, if_neg h]

theorem lower_idem (s : Str) : lower (lower s) = lower s := by
  simp [lower, List.map_map, Function.comp_def, lowerChar_idem]

theorem startsWithDash_lower (s : Str) :
    startsWithDash (lower s) = startsWithDash s := by
  cases s with
  | nil => rfl
  | cons c t =>
    simp only [lower, List.map_cons, startsWithDash]
    by_cases h : c = '-'
    · simp [h, lowerChar_dash_iff]
    · have h2 : ¬ lowerChar c = '-' := fun hh => h ((lowerChar_dash_iff c).mp hh)
      simp [h, h2]

/-! ## Claim theorems -/

/-- C2: after the marker-removal step of the assembler, a marker occurring
N times in the concatenated buffer (counted by the left-to-right
non-overlapping scan that a global regex replacement performs, mid-line
occurrences included) is removed all N times: the buffer decomposes into
N+1 pieces glued together by the N occurrences, and the output is exactly
those pieces concatenated, so every character outside the removed
occurrences — in particular any proper prefix/suffix or other partial
match of the marker — is preserved unaltered; a marker with zero
occurrences (equivalently: not an infix of the buffer) leaves the buffer
unchanged. -/
theorem C2_marker_removal_exhaustive_literal (m s : Str) (hm : m ≠ []) :
    glue m (pieces m s) = s ∧
    (pieces m s).flatten = removeAll m s ∧
    (pieces m s).length = countOcc m s + 1 ∧
    (countOcc m s = 0 ↔ ¬ m <:+: s) ∧
    (¬ m <:+: s → removeAll m s = s) :=
  ⟨glue_pieces m s, join_pieces m s, pieces_length m s,
   countOcc_eq_zero_iff hm,
   fun h => removeAll_of_countOcc_zero ((countOcc_eq_zero_iff hm).mpr h)⟩

theorem C2_marker_removal_witness :
    glue (str "@M") (pieces (str "@M") (str "xx@Myy@Mzz")) = str "xx@Myy@Mzz" ∧
    (pieces (str "@M") (str "xx@Myy@Mzz")).flatten =
      removeAll (str "@M") (str "xx@Myy@Mzz") ∧
    (pieces (str "@M") (str "xx@Myy@Mzz")).length =
      countOcc (str "@M") (str "xx@Myy@Mzz") + 1 ∧
    (countOcc (str "@M") (str "xx@Myy@Mzz") = 0 ↔ ¬ str "@M" <:+: str "xx@Myy@Mzz") ∧
    (¬ str "@M" <:+: str "xx@Myy@Mzz" →
      removeAll (str "@M") (str "xx@Myy@Mzz") = str "xx@Myy@Mzz") :=
  C2_marker_removal_exhaustive_literal (str "@M") (str "xx@Myy@Mzz") (by decide)

/-- C3: the assembler appends, in sequence order, each fragment's resolved
text followed by exactly one newline character (whether or not the text
already ends in one); in particular the two literal fragments `a` and `b`
with an empty replacement list produce exactly the written bytes
`a\nb\n`. -/
theorem C3_newline_insertion (fs : FS) (tgt : Str) (parts : List Part)
    (rs : List Str) (h : resolveTexts fs parts = some rs) :
    resolveParts fs parts = Except.ok ((rs.map (fun t => t ++ ['\n'])).flatten) ∧
    (buildAndClean fs tgt [Part.content (str "a"), Part.content (str "b")] []).1 tgt =
      some (str "a\nb\n") :=
  ⟨resolveParts_ok fs parts rs h, by
    simp [buildAndClean, resolveParts, applyReplacements, writeFile, Except.map, str]⟩

theorem C3_newline_insertion_witness :
    resolveParts (fun _ => none) [Part.content (str "a"), Part.content (str "b")] =
      Except.ok ((([str "a", str "b"]).map (fun t => t ++ ['\n'])).flatten) ∧
    (buildAndClean (fun _ => none) (str "out")
        [Part.content (str "a"), Part.content (str "b")] []).1 (str "out") =
      some (str "a\nb\n") :=
  C3_newline_insertion (fun _ => none) (str "out")
    [Part.content (str "a"), Part.content (str "b")] [str "a", str "b"] (by decide)

/-- C4 counterexample: `buildAndClean` has no `return` statement, so its
JavaScript return value is `undefined` (`none` in the model), never the
written bytes: here the bytes written to `out` are `a\n` but the call
does not return them. -/
theorem C4_counterexample :
    (buildAndClean (fun _ => none) (str "out") [Part.content (str "a")] []).2 ≠
      Except.ok (some (str "a\n")) ∧
    (buildAndClean (fun _ => none) (str "out") [Part.content (str "a")] []).1 (str "out") =
      some (str "a\n") := by
  constructor
  · intro h
    have h2 : (Except.ok (none : Option Str) : Except Str (Option Str)) =
        Except.ok (some (str "a\n")) := h
    exact Option.noConfusion (Except.ok.inj h2)
  · decide

/-- C4 amended: the assembler does not return the written bytes — the
function completes with JavaScript `undefined` — and the exact bytes it
wrote (the post-marker-removal concatenation) are observable only through
the filesystem at the destination path. -/
theorem C4_amended_returns_undefined (fs : FS) (tgt : Str) (parts : List Part)
    (reps : List Str) (rs : List Str) (h : resolveTexts fs parts = some rs) :
    (buildAndClean fs tgt parts reps).2 = Except.ok none ∧
    (buildAndClean fs tgt parts reps).1 tgt =
      some (applyReplacements reps ((rs.map (fun t => t ++ ['\n'])).flatten)) := by
  rw [buildAndClean_ok tgt reps h]
  exact ⟨rfl, writeFile_same fs tgt _⟩

theorem C4_amended_witness :
    (buildAndClean (fun _ => none) (str "out") [Part.content (str "a")] []).2 =
      Except.ok none ∧
    (buildAndClean (fun _ => none) (str "out") [Part.content (str "a")] []).1 (str "out") =
      some (applyReplacements [] ((([str "a"]).map (fun t => t ++ ['\n'])).flatten)) :=
  C4_amended_returns_undefined (fun _ => none) (str "out") [Part.content (str "a")]
    [] [str "a"] (by decide)

/-- C5: when some file part of the plan is unreadable, the assembler fails
before performing any write: the returned filesystem is the input
filesystem unchanged (the destination is neither created nor modified and
the partial buffer is discarded), the exception carries an unreadable
path, and the uncaught exception terminates the process with exit
status 1. -/
theorem C5_read_failure_aborts (fs : FS) (tgt : Str) (parts : List Part)
    (reps : List Str) (p : Str) (hmem : Part.file p ∈ parts) (hread : fs p = none) :
    (buildAndClean fs tgt parts reps).1 = fs ∧
    (∃ q, (buildAndClean fs tgt parts reps).2 = Except.error q ∧ fs q = none) ∧
    exitOf (buildAndClean fs tgt parts reps).2 = 1 := by
  obtain ⟨q, hq, hqr⟩ := resolveParts_err fs parts p hmem hread
  refine ⟨?_, ⟨q, ?_, hqr⟩, ?_⟩ <;> simp [buildAndClean, hq, exitOf]

theorem C5_read_failure_witness :
    (buildAndClean (fun _ => none) (str "dist/browser/nodeunit.js")
        [Part.file (str "lib/core.js")] browserReplacements).1 = (fun _ => none) ∧
    (∃ q, (buildAndClean (fun _ => none) (str "dist/browser/nodeunit.js")
        [Part.file (str "lib/core.js")] browserReplacements).2 = Except.error q ∧
        (fun _ => none : FS) q = none) ∧
    exitOf (buildAndClean (fun _ => none) (str "dist/browser/nodeunit.js")
        [Part.file (str "lib/core.js")] browserReplacements).2 = 1 :=
  C5_read_failure_aborts (fun _ => none) (str "dist/browser/nodeunit.js")
    [Part.file (str "lib/core.js")] browserReplacements (str "lib/core.js")
    (by decide) rfl

/-- C6: the browser target wraps each of the five legacy test scripts with
exactly the three-part plan (literal opener, the file `test/X.js`, literal
closer naming `this.X_with_underscores`); in particular the wrapper
identifier generated for `test-runmodule.js` is `this.test_runmodule`. -/
theorem C6_test_wrapper_plans :
    testScripts = [str "test-base.js", str "test-runmodule.js", str "test-runtest.js",
      str "test-testcase.js", str "test-testcase-legacy.js"] ∧
    mkTestParts (str "test-base.js") =
      [Part.content (str "(function (exports) \x7b"),
       Part.file (str "test/test-base.js"),
       Part.content (str "\x7d)(this.test_base = \x7b\x7d);")] ∧
    mkTestParts (str "test-runmodule.js") =
      [Part.content (str "(function (exports) \x7b"),
       Part.file (str "test/test-runmodule.js"),
       Part.content (str "\x7d)(this.test_runmodule = \x7b\x7d);")] ∧
    mkTestParts (str "test-runtest.js") =
      [Part.content (str "(function (exports) \x7b"),
       Part.file (str "test/test-runtest.js"),
       Part.content (str "\x7d)(this.test_runtest = \x7b\x7d);")] ∧
    mkTestParts (str "test-testcase.js") =
      [Part.content (str "(function (exports) \x7b"),
       Part.file (str "test/test-testcase.js"),
       Part.content (str "\x7d)(this.test_testcase = \x7b\x7d);")] ∧
    mkTestParts (str "test-testcase-legacy.js") =
      [Part.content (str "(function (exports) \x7b"),
       Part.file (str "test/test-testcase-legacy.js"),
       Part.content (str "\x7d)(this.test_testcase_legacy = \x7b\x7d);")] := by
  refine ⟨rfl, ?_, ?_, ?_, ?_, ?_⟩ <;> decide

/-- C7 counterexample: removal of the two build markers does not commute on
every buffer: deleting the browser marker from this buffer creates a
fresh occurrence of the CommonJS marker, so the two removal orders give
different results. -/
theorem C7_counterexample :
    applyReplacements commonjsReplacements
        (str "@REMOVE_LINE_FOR_COMMON@REMOVE_LINE_FOR_BROWSERJS") ≠
      applyReplacements commonjsReplacements.reverse
        (str "@REMOVE_LINE_FOR_COMMON@REMOVE_LINE_FOR_BROWSERJS") := by
  decide

/-- C7 amended: marker removal for the build targets' marker sets is
order-independent provided the buffer neither contains the CommonJS
marker nor acquires an occurrence of it by removal of the browser marker
(for the browser target's singleton marker set the two orders coincide
unconditionally). -/
theorem C7_amended_commute (s : Str)
    (ha : countOcc commonjsMarker s = 0)
    (hb : countOcc commonjsMarker (removeAll browserMarker s) = 0) :
    applyReplacements commonjsReplacements s =
      applyReplacements commonjsReplacements.reverse s ∧
    applyReplacements browserReplacements s =
      applyReplacements browserReplacements.reverse s := by
  constructor
  · show applyReplacements [browserMarker, commonjsMarker] s =
      applyReplacements [browserMarker, commonjsMarker].reverse s
    simp only [List.reverse_cons, List.reverse_nil, List.nil_append,
      List.cons_append, applyReplacements, List.foldl_cons, List.foldl_nil]
    rw [removeAll_of_countOcc_zero hb, removeAll_of_countOcc_zero ha]
  · rfl

theorem C7_amended_witness :
    applyReplacements commonjsReplacements (str "aa@REMOVE_LINE_FOR_BROWSERbb") =
      applyReplacements commonjsReplacements.reverse
        (str "aa@REMOVE_LINE_FOR_BROWSERbb") ∧
    applyReplacements browserReplacements (str "aa@REMOVE_LINE_FOR_BROWSERbb") =
      applyReplacements browserReplacements.reverse
        (str "aa@REMOVE_LINE_FOR_BROWSERbb") :=
  C7_amended_commute (str "aa@REMOVE_LINE_FOR_BROWSERbb") (by decide) (by decide)

/-! ### Lemmas for the browser target -/

theorem rmTree_preserves {fs : FS} {dir q : Str}
    (h : ¬ (dir = q ∨ (dir ++ ['/']).isPrefixOf q = true)) : rmTree fs dir q = fs q := by
  simp only [rmTree]
  rw [if_neg h]

theorem rmTree_removes {fs : FS} {dir q : Str}
    (h : dir = q ∨ (dir ++ ['/']).isPrefixOf q = true) : rmTree fs dir q = none := by
  simp only [rmTree]
  rw [if_pos h]

theorem resolveTexts_isSome (fs : FS) : ∀ (parts : List Part),
    (∀ p, Part.file p ∈ parts → (fs p).isSome = true) →
    ∃ rs, resolveTexts fs parts = some rs := by
  intro parts
  induction parts with
  | nil => exact fun _ => ⟨[], rfl⟩
  | cons hd tl ih =>
    intro h
    obtain ⟨rs, hrs⟩ := ih (fun p hp => h p (List.mem_cons_of_mem _ hp))
    cases hd with
    | file p =>
      obtain ⟨t, ht⟩ := Option.isSome_iff_exists.mp (h p (List.mem_cons_self _ _))
      exact ⟨t :: rs, by simp [resolveTexts, resolveFrag, ht, hrs]⟩
    | content t => exact ⟨t :: rs, by simp [resolveTexts, resolveFrag, hrs]⟩

theorem testPath_ne_distPath (a b : Str) :
    str "test/" ++ a ≠ str "dist/browser/test/" ++ b := by
  intro h
  have h1 : ('t' : Char) :: (str "est/" ++ a) =
      'd' :: (str "ist/browser/test/" ++ b) := h
  injection h1 with hc _
  exact absurd hc (by decide)

theorem distPath_inj {a b : Str}
    (h : str "dist/browser/test/" ++ a = str "dist/browser/test/" ++ b) : a = b :=
  List.append_cancel_left h

/-- When every wrapped source script is readable, the wrapping loop
completes, writes (only) the per-script artifacts under the browser test
directory, and leaves every other path untouched. -/
theorem wrapScripts_ok : ∀ (scripts : List Str) (fs : FS),
    (∀ s ∈ scripts, (fs (str "test/" ++ s)).isSome = true) →
    ∃ fs', wrapScripts fs scripts = (fs', Except.ok ()) ∧
      (∀ q, (∀ s ∈ scripts, q ≠ str "dist/browser/test/" ++ s) → fs' q = fs q) ∧
      (∀ s ∈ scripts, (fs' (str "dist/browser/test/" ++ s)).isSome = true) := by
  intro scripts
  induction scripts with
  | nil =>
    intro fs h
    exact ⟨fs, rfl, fun q _ => rfl, by simp⟩
  | cons s ss ih =>
    intro fs h
    have hs : (fs (str "test/" ++ s)).isSome = true := h s (List.mem_cons_self _ _)
    have hparts : ∀ p, Part.file p ∈ mkTestParts s → (fs p).isSome = true := by
      intro p hp
      simp only [mkTestParts, List.mem_cons, List.not_mem_nil, or_false] at hp
      rcases hp with h1 | h1 | h1
      · cases h1
      · injection h1 with h2
        subst h2
        exact hs
      · cases h1
    obtain ⟨rs, hrs⟩ := resolveTexts_isSome fs (mkTestParts s) hparts
    have hB := buildAndClean_ok (str "dist/browser/test/" ++ s)
      browserReplacements hrs
    have hss : ∀ s' ∈ ss, ((writeFile fs (str "dist/browser/test/" ++ s)
        (applyReplacements browserReplacements
          ((rs.map (fun t => t ++ ['\n'])).flatten))) (str "test/" ++ s')).isSome
          = true := by
      intro s' hs'
      rw [writeFile_other _ _ (testPath_ne_distPath s' s)]
      exact h s' (List.mem_cons_of_mem _ hs')
    obtain ⟨fs', hw, hchar, hsome⟩ := ih _ hss
    refine ⟨fs', ?_, ?_, ?_⟩
    · show wrapScripts fs (s :: ss) = _
      simp only [wrapScripts, hB]
      exact hw
    · intro q hq
      rw [hchar q (fun s' hs' => hq s' (List.mem_cons_of_mem _ hs')),
        writeFile_other _ _ (hq s (List.mem_cons_self _ _))]
    · intro s' hs'
      rcases List.mem_cons.mp hs' with rfl | hmem
      · by_cases hin : s' ∈ ss
        · exact hsome s' hin
        · rw [hchar _ (fun s2 hs2 he => hin (by rw [distPath_inj he]; exact hs2)),
            writeFile_same]
          rfl
      · exact hsome s' hmem

/-- The input files the browser target reads. -/
def browserInputPaths : List Str :=
  [str "share/license.js", str "deps/json2.js", str "deps/async.js",
   str "lib/assert.js", str "lib/types.js", str "lib/core.js",
   str "lib/reporters/browser.js", str "share/nodeunit.css", str "test/test.html",
   str "test/test-base.js", str "test/test-runmodule.js", str "test/test-runtest.js",
   str "test/test-testcase.js", str "test/test-testcase-legacy.js"]

/-- The artifacts the browser target writes below its test directory. -/
def browserTestOutputs : List Str :=
  [str "dist/browser/test/test.html",
   str "dist/browser/test/test-base.js", str "dist/browser/test/test-runmodule.js",
   str "dist/browser/test/test-runtest.js", str "dist/browser/test/test-testcase.js",
   str "dist/browser/test/test-testcase-legacy.js",
   str "dist/browser/test/nodeunit.js", str "dist/browser/test/nodeunit.css"]

theorem optionsOf_contains (a : Str) (ha : startsWithDash a = true) :
    ∀ args : List Str, (optionsOf args).contains a = args.contains a := by
  intro args
  induction args with
  | nil => rfl
  | cons x xs ih =>
    by_cases hx : startsWithDash x = true
    · simp only [optionsOf, List.filter_cons, hx, if_true, List.contains_cons]
      simp only [optionsOf] at ih
      rw [ih]
    · have hne : (a == x) = false := by
        rw [beq_eq_false_iff_ne]
        intro he
        subst he
        exact hx ha
      simp only [optionsOf, List.filter_cons, hx, Bool.false_eq_true, if_false,
        List.contains_cons, hne, Bool.false_or]
      simp only [optionsOf] at ih
      rw [ih]

/-- C1 counterexample: on the spec's own scenario input `frobnicate` the
dispatch does reach the unknown-command branch (error line plus brief
help), but no branch of the dispatch calls `process.exit`, so the script
falls off the end and the process exit status is 0, not 1. -/
theorem C1_counterexample :
    dispatch [str "frobnicate"] = Outcome.errUnknown (str "frobnicate") ∧
    outcomeExit (dispatch [str "frobnicate"]) ≠ some 1 := by
  constructor
  · decide
  · decide

/-- C1 amended: for every invocation whose arguments contain no help flag
and either no command word or an unrecognized one, the program prints the
one-line error message followed by the brief help text — but then
terminates normally with exit status 0 (the source never calls
`process.exit` in these branches). -/
theorem C1_amended_usage_error (args : List Str)
    (h1 : (optionsOf args).contains (str "-h") = false)
    (h2 : (optionsOf args).contains (str "--help") = false)
    (h3 : (optionsOf args).contains (str "-hh") = false)
    (h4 : primaryCommand args ∉ recognizedCommands) :
    dispatch args = (if primaryCommand args = [] then Outcome.errNoCommand
      else Outcome.errUnknown (primaryCommand args)) ∧
    printsOf (dispatch args) =
      (if primaryCommand args = [] then
        [PrintItem.errorLine noCommandLine, PrintItem.helpBrief]
      else [PrintItem.errorLine (unknownCommandLine (primaryCommand args)),
        PrintItem.helpBrief]) ∧
    outcomeExit (dispatch args) = some 0 := by
  simp only [recognizedCommands, List.mem_cons, List.not_mem_nil, or_false,
    not_or] at h4
  obtain ⟨n1, n2, n3, n4, n5, n6, n7, n8, n9, n10⟩ := h4
  unfold dispatch dispatchCore
  rw [h1, h2, h3]
  by_cases hc : primaryCommand args = []
  · simp [hc, printsOf, outcomeExit]
  · simp [hc, n1, n2, n3, n4, n5, n6, n7, n8, n9, n10, printsOf, outcomeExit]

theorem C1_amended_witness :
    (dispatch [str "frobnicate"] =
      (if primaryCommand [str "frobnicate"] = [] then Outcome.errNoCommand
        else Outcome.errUnknown (primaryCommand [str "frobnicate"]))) ∧
    printsOf (dispatch [str "frobnicate"]) =
      (if primaryCommand [str "frobnicate"] = [] then
        [PrintItem.errorLine noCommandLine, PrintItem.helpBrief]
      else [PrintItem.errorLine (unknownCommandLine (primaryCommand [str "frobnicate"])),
        PrintItem.helpBrief]) ∧
    outcomeExit (dispatch [str "frobnicate"]) = some 0 :=
  C1_amended_usage_error [str "frobnicate"] (by decide) (by decide) (by decide)
    (by decide)

/-- C9: whenever the arguments contain `-h` or `--help` — or, when neither
is present, `-hh` — the dispatch only shows the help (the brief one for
`-h`/`--help`, the verbose one for `-hh`), runs no task at all even when a
valid target word is among the arguments, and the process exits with
status 0. -/
theorem C9_help_flags_short_circuit (args : List Str) :
    ((args.contains (str "-h") || args.contains (str "--help")) = true →
      dispatch args = Outcome.helpBrief ∧
      printsOf (dispatch args) = [PrintItem.helpBrief] ∧
      outcomeExit (dispatch args) = some 0) ∧
    (args.contains (str "-h") = false → args.contains (str "--help") = false →
      args.contains (str "-hh") = true →
      dispatch args = Outcome.helpVerbose ∧
      printsOf (dispatch args) = [PrintItem.helpVerbose] ∧
      outcomeExit (dispatch args) = some 0) := by
  have h1 := optionsOf_contains (str "-h") (by decide) args
  have h2 := optionsOf_contains (str "--help") (by decide) args
  have h3 := optionsOf_contains (str "-hh") (by decide) args
  constructor
  · intro h
    unfold dispatch dispatchCore
    rw [h1, h2, h]
    exact ⟨rfl, rfl, rfl⟩
  · intro ha hb hc
    unfold dispatch dispatchCore
    rw [h1, h2, h3, ha, hb, hc]
    exact ⟨rfl, rfl, rfl⟩

theorem C9_witness :
    (dispatch [str "build", str "-h"] = Outcome.helpBrief ∧
      printsOf (dispatch [str "build", str "-h"]) = [PrintItem.helpBrief] ∧
      outcomeExit (dispatch [str "build", str "-h"]) = some 0) ∧
    (dispatch [str "clean", str "-hh"] = Outcome.helpVerbose ∧
      printsOf (dispatch [str "clean", str "-hh"]) = [PrintItem.helpVerbose] ∧
      outcomeExit (dispatch [str "clean", str "-hh"]) = some 0) :=
  ⟨(C9_help_flags_short_circuit [str "build", str "-h"]).1 (by decide),
   (C9_help_flags_short_circuit [str "clean", str "-hh"]).2 (by decide) (by decide)
     (by decide)⟩

/-- C10: command matching is case-insensitive — an invocation whose command
word is `w` (any argument not starting with a hyphen, here placed after
any run of flag arguments) behaves identically to the invocation with `w`
lowercased, because the dispatch lowercases the primary command before
the switch. -/
theorem C10_case_insensitive (pre post : List Str) (w : Str)
    (hpre : ∀ a ∈ pre, startsWithDash a = true)
    (hw : startsWithDash w = false) :
    dispatch (pre ++ w :: post) = dispatch (pre ++ lower w :: post) := by
  have hwl : startsWithDash (lower w) = false := by
    rw [startsWithDash_lower]; exact hw
  have hfind : ∀ v : Str, startsWithDash v = false →
      (pre ++ v :: post).find? (fun a => !startsWithDash a) = some v := by
    intro v hv
    have hnone : pre.find? (fun a => !startsWithDash a) = none :=
      List.find?_eq_none.mpr (fun x hx => by simp [hpre x hx])
    rw [List.find?_append, hnone, List.find?_cons_of_pos _ (by simp [hv])]
    rfl
  have hopts : optionsOf (pre ++ w :: post) = optionsOf (pre ++ lower w :: post) := by
    simp [optionsOf, List.filter_append, List.filter_cons, hw, hwl]
  have hprim : primaryCommand (pre ++ w :: post) =
      primaryCommand (pre ++ lower w :: post) := by
    unfold primaryCommand
    rw [hfind w hw, hfind (lower w) hwl]
    simp only [Option.getD_some]
    exact (lower_idem w).symm
  unfold dispatch
  rw [hopts, hprim]

theorem C10_witness :
    dispatch [str "BUILD"] = dispatch [lower (str "BUILD")] :=
  C10_case_insensitive [] [] (str "BUILD") (by simp) (by decide)

/-- C8: for the browser target, a failing minification post-step — whether
the minifier throws or returns an error payload — is caught and logged to
the error stream and does not abort the build: the run still completes
normally (exit status 0), no minified sibling file is produced, and all
subsequent steps (test-script wrapping and the final copies into the test
directory) still execute. -/
theorem C8_minify_failure_nonfatal (fs0 : FS) (minify : Str → MinifyResult)
    (hmin : ∀ c, (minify c).isFailure = true)
    (hread : ∀ p ∈ browserInputPaths, (fs0 p).isSome = true) :
    ∃ res, runBrowser fs0 minify = Except.ok res ∧
      exitOf (runBrowser fs0 minify) = 0 ∧
      res.fs browserMin = none ∧
      (∃ e, res.errLog = [minifyErrorLine e]) ∧
      (∀ q ∈ browserTestOutputs, (res.fs q).isSome = true) := by
  have hA : ∀ p ∈ browserInputPaths, (rmTree fs0 browserDir) p = fs0 p := by
    intro p hp
    fin_cases hp <;> exact rmTree_preserves (by decide)
  have hfiles : ∀ p, Part.file p ∈ browserParts →
      ((rmTree fs0 browserDir) p).isSome = true := by
    intro p hp
    simp only [browserParts, List.mem_cons, List.not_mem_nil, or_false, false_or,
      Part.file.injEq, reduceCtorEq] at hp
    rcases hp with rfl | rfl | rfl | rfl | rfl | rfl | rfl <;>
      (rw [hA _ (by decide)]; exact hread _ (by decide))
  obtain ⟨rs1, hrs1⟩ := resolveTexts_isSome _ browserParts hfiles
  have hB := buildAndClean_ok browserTarget browserReplacements hrs1
  set w1 : Str := applyReplacements browserReplacements
    ((rs1.map (fun t => t ++ ['\n'])).flatten) with hw1def
  set f1 : FS := writeFile (rmTree fs0 browserDir) browserTarget w1 with hf1def
  obtain ⟨cssv, hcssv⟩ :=
    Option.isSome_iff_exists.mp (hread (str "share/nodeunit.css") (by decide))
  have hcss1 : f1 (str "share/nodeunit.css") = some cssv := by
    rw [hf1def, writeFile_other _ _ (by decide), hA _ (by decide)]
    exact hcssv
  have hC : copyFile f1 (str "share/nodeunit.css") browserCss =
      (writeFile f1 browserCss cssv, Except.ok ()) := by
    simp [copyFile, hcss1]
  set f2 : FS := writeFile f1 browserCss cssv with hf2def
  have hread1 : f2 browserTarget = some w1 := by
    rw [hf2def, writeFile_other _ _ (by decide), hf1def, writeFile_same]
  have hMS : ∃ e, minifyStep f2 minify = (f2, [minifyErrorLine e]) := by
    rcases hm : minify w1 with mcode | e | e
    · have hfail := hmin w1
      rw [hm] at hfail
      simp [MinifyResult.isFailure] at hfail
    · exact ⟨e, by simp [minifyStep, hread1, hm]⟩
    · exact ⟨e, by simp [minifyStep, hread1, hm]⟩
  obtain ⟨e, hMSe⟩ := hMS
  obtain ⟨htmlv, hhtmlv⟩ :=
    Option.isSome_iff_exists.mp (hread (str "test/test.html") (by decide))
  have hhtml2 : f2 (str "test/test.html") = some htmlv := by
    rw [hf2def, writeFile_other _ _ (by decide), hf1def,
      writeFile_other _ _ (by decide), hA _ (by decide)]
    exact hhtmlv
  have hD : copyFile f2 (str "test/test.html") (str "dist/browser/test/test.html") =
      (writeFile f2 (str "dist/browser/test/test.html") htmlv, Except.ok ()) := by
    simp [copyFile, hhtml2]
  set f4 : FS := writeFile f2 (str "dist/browser/test/test.html") htmlv with hf4def
  have hscripts : ∀ s ∈ testScripts, (f4 (str "test/" ++ s)).isSome = true := by
    intro s hs
    fin_cases hs <;>
      (rw [hf4def, writeFile_other _ _ (by decide), hf2def,
        writeFile_other _ _ (by decide), hf1def, writeFile_other _ _ (by decide),
        hA _ (by decide)]
       exact hread _ (by decide))
  obtain ⟨f5, hw5, hchar5, hsome5⟩ := wrapScripts_ok testScripts f4 hscripts
  have hbt5 : f5 browserTarget = some w1 := by
    rw [hchar5 browserTarget (by intro s hs; fin_cases hs <;> decide),
      hf4def, writeFile_other _ _ (by decide), hf2def,
      writeFile_other _ _ (by decide), hf1def, writeFile_same]
  have hE : copyFile f5 browserTarget (str "dist/browser/test/nodeunit.js") =
      (writeFile f5 (str "dist/browser/test/nodeunit.js") w1, Except.ok ()) := by
    simp [copyFile, hbt5]
  set f6 : FS := writeFile f5 (str "dist/browser/test/nodeunit.js") w1 with hf6def
  have hcss6 : f6 browserCss = some cssv := by
    rw [hf6def, writeFile_other _ _ (by decide),
      hchar5 browserCss (by intro s hs; fin_cases hs <;> decide),
      hf4def, writeFile_other _ _ (by decide), hf2def, writeFile_same]
  have hF : copyFile f6 browserCss (str "dist/browser/test/nodeunit.css") =
      (writeFile f6 (str "dist/browser/test/nodeunit.css") cssv, Except.ok ()) := by
    simp [copyFile, hcss6]
  set f7 : FS := writeFile f6 (str "dist/browser/test/nodeunit.css") cssv with hf7def
  have hrun : runBrowser fs0 minify = Except.ok ⟨f7, [minifyErrorLine e]⟩ := by
    simp only [runBrowser, hB, hC, hMSe, hD, hw5, hE, hF]
  refine ⟨⟨f7, [minifyErrorLine e]⟩, hrun, ?_, ?_, ⟨e, rfl⟩, ?_⟩
  · rw [hrun]
    rfl
  · show f7 browserMin = none
    rw [hf7def, writeFile_other _ _ (by decide), hf6def,
      writeFile_other _ _ (by decide),
      hchar5 browserMin (by intro s hs; fin_cases hs <;> decide),
      hf4def, writeFile_other _ _ (by decide), hf2def,
      writeFile_other _ _ (by decide), hf1def, writeFile_other _ _ (by decide)]
    exact rmTree_removes (Or.inr (by decide))
  · intro q hq
    fin_cases hq
    · show (f7 (str "dist/browser/test/test.html")).isSome = true
      rw [hf7def, writeFile_other _ _ (by decide), hf6def,
        writeFile_other _ _ (by decide),
        hchar5 _ (by intro s hs; fin_cases hs <;> decide),
        hf4def, writeFile_same]
      rfl
    · show (f7 (str "dist/browser/test/test-base.js")).isSome = true
      rw [hf7def, writeFile_other _ _ (by decide), hf6def,
        writeFile_other _ _ (by decide)]
      exact hsome5 (str "test-base.js") (by decide)
    · show (f7 (str "dist/browser/test/test-runmodule.js")).isSome = true
      rw [hf7def, writeFile_other _ _ (by decide), hf6def,
        writeFile_other _ _ (by decide)]
      exact hsome5 (str "test-runmodule.js") (by decide)
    · show (f7 (str "dist/browser/test/test-runtest.js")).isSome = true
      rw [hf7def, writeFile_other _ _ (by decide), hf6def,
        writeFile_other _ _ (by decide)]
      exact hsome5 (str "test-runtest.js") (by decide)
    · show (f7 (str "dist/browser/test/test-testcase.js")).isSome = true
      rw [hf7def, writeFile_other _ _ (by decide), hf6def,
        writeFile_other _ _ (by decide)]
      exact hsome5 (str "test-testcase.js") (by decide)
    · show (f7 (str "dist/browser/test/test-testcase-legacy.js")).isSome = true
      rw [hf7def, writeFile_other _ _ (by decide), hf6def,
        writeFile_other _ _ (by decide)]
      exact hsome5 (str "test-testcase-legacy.js") (by decide)
    · show (f7 (str "dist/browser/test/nodeunit.js")).isSome = true
      rw [hf7def, writeFile_other _ _ (by decide), hf6def, writeFile_same]
      rfl
    · show (f7 (str "dist/browser/test/nodeunit.css")).isSome = true
      rw [hf7def, writeFile_same]
      rfl

/-- A concrete input tree for the browser target, every required source
file present with stub contents. -/
def sampleBrowserFS : FS := fun q =>
  if q ∈ browserInputPaths then some (str "x") else none

theorem C8_witness :
    ∃ res, runBrowser sampleBrowserFS
        (fun _ => MinifyResult.errorPayload (str "boom")) = Except.ok res ∧
      exitOf (runBrowser sampleBrowserFS
        (fun _ => MinifyResult.errorPayload (str "boom"))) = 0 ∧
      res.fs browserMin = none ∧
      (∃ e, res.errLog = [minifyErrorLine e]) ∧
      (∀ q ∈ browserTestOutputs, (res.fs q).isSome = true) :=
  C8_minify_failure_nonfatal sampleBrowserFS
    (fun _ => MinifyResult.errorPayload (str "boom")) (fun _ => rfl) (by decide)

end TaskRunner
